import Mathlib

/-!
Shallow embedding of src/lib/grammers-client/src/types/entity_set.rs.

Rust i32/i64 identifiers and access hashes carry no arithmetic in this file,
so they are embedded as Int. Rust HashMap values are embedded as functions
from the key type to Option of the value type; collecting an iterator of
key-value pairs into a HashMap is embedded as a left fold of single-entry
insertions, which matches the insert-overwrites semantics of HashMap.
-/

namespace Telerust

/-- Raw peer reference to a user (tl.types.PeerUser), carrying its numeric id. -/
structure PeerUser where
  user_id : Int
deriving DecidableEq

/-- Raw peer reference to a basic group (tl.types.PeerChat). -/
structure PeerChat where
  chat_id : Int
deriving DecidableEq

/-- Raw peer reference to a channel (tl.types.PeerChannel). -/
structure PeerChannel where
  channel_id : Int
deriving DecidableEq

/-- Raw peer reference (tl.enums.Peer): tagged variant over the three kinds. -/
inductive TlPeer
  | User (u : PeerUser)
  | Chat (c : PeerChat)
  | Channel (c : PeerChannel)
deriving DecidableEq

/-- Modelled from the spec: the full user record (tl.types.User) is repository
code outside src/; per the spec it carries at minimum a numeric identifier, so
the remaining fields are abstracted into an opaque payload. -/
structure UserRec where
  id : Int
  payload : Nat
deriving DecidableEq

/-- Modelled from the spec: the full basic-group record (tl.types.Chat),
abstracted as its numeric identifier plus an opaque payload. -/
structure ChatRec where
  id : Int
  payload : Nat
deriving DecidableEq

/-- Modelled from the spec: the full channel record (tl.types.Channel),
abstracted as its numeric identifier plus an opaque payload. -/
structure ChannelRec where
  id : Int
  payload : Nat
deriving DecidableEq

/-- Raw user record variant (tl.enums.User): a real record or the Empty
placeholder, which carries only a numeric id. -/
inductive TlUser
  | user (u : UserRec)
  | empty (id : Int)
deriving DecidableEq

/-- Raw chat record variant (tl.enums.Chat): real chat and channel records or
the Empty and Forbidden placeholders, each placeholder carrying a numeric id. -/
inductive TlChat
  | empty (id : Int)
  | chat (c : ChatRec)
  | forbidden (id : Int)
  | channel (ch : ChannelRec)
  | channelForbidden (id : Int)
deriving DecidableEq

/-- Modelled from the spec: crate.types.Entity is repository code outside
src/; it is a tagged variant over the full User, Chat, and Channel records. -/
inductive Entity
  | User (u : UserRec)
  | Chat (c : ChatRec)
  | Channel (ch : ChannelRec)
deriving DecidableEq

/-- Modelled from the spec: the peer of an Entity is repository code outside
src/; per the spec every entity carries enough to reconstruct its peer key, so
the peer is the raw peer reference of the same kind carrying the entity record
numeric id. -/
def Entity.peer : Entity → TlPeer
  | .User u => .User ⟨u.id⟩
  | .Chat c => .Chat ⟨c.id⟩
  | .Channel ch => .Channel ⟨ch.id⟩

/-- Hashable Peer key (enum Peer in the source). -/
inductive Peer
  | User (id : Int)
  | Chat (id : Int)
  | Channel (id : Int)
deriving DecidableEq

/-- Key derivation impl From (ref tl.enums.Peer) for Peer. -/
def Peer.ofTl : TlPeer → Peer
  | .User u => .User u.user_id
  | .Chat c => .Chat c.chat_id
  | .Channel c => .Channel c.channel_id

/-- Helper structure to efficiently retrieve entities via their peer
(EntitySet in the source); the HashMap is embedded as a function. -/
structure EntitySet where
  map : Peer → Option Entity

/-- One HashMap insertion: the new binding shadows any old binding of the key. -/
def insertPair (m : Peer → Option Entity) (kv : Peer × Entity) : Peer → Option Entity :=
  fun p => if p = kv.1 then some kv.2 else m p

/-- Collecting an iterator of pairs into a HashMap: left fold of insertions
starting from the empty map, so a later pair overwrites an earlier one. -/
def hashMapCollect (l : List (Peer × Entity)) : Peer → Option Entity :=
  l.foldl insertPair (fun _ => none)

/-- The filter_map closure over users in EntitySet.new: keep real user
records as entities, drop the Empty placeholder. -/
def userFilterMap : TlUser → Option Entity
  | .user u => some (.User u)
  | .empty _ => none

/-- The filter_map closure over chats in EntitySet.new: keep real chat and
channel records as entities, drop Empty, Forbidden and ChannelForbidden. -/
def chatFilterMap : TlChat → Option Entity
  | .empty _ => none
  | .chat c => some (.Chat c)
  | .forbidden _ => none
  | .channel ch => some (.Channel ch)
  | .channelForbidden _ => none

/-- EntitySet.new: filter both input sequences, chain users before chats, key
each surviving entity by its own peer, and collect into the map. The Arc
shared-ownership wrapper is identity in this embedding. -/
def EntitySet.new (users : List TlUser) (chats : List TlChat) : EntitySet :=
  ⟨hashMapCollect
    ((users.filterMap userFilterMap ++ chats.filterMap chatFilterMap).map
      (fun entity => (Peer.ofTl entity.peer, entity)))⟩

/-- EntitySet.empty: a snapshot with an empty map. -/
def EntitySet.empty : EntitySet :=
  ⟨fun _ => none⟩

/-- EntitySet.get: retrieve the full Entity given its peer. -/
def EntitySet.get (s : EntitySet) (peer : TlPeer) : Option Entity :=
  s.map (Peer.ofTl peer)

/-- In-memory entity cache (EntityCache in the source). The users and
channels HashMaps from id to access hash are embedded as functions; the
source field self_id is named self_id_opt here because the accessor method
EntityCache.self_id keeps the source name. -/
structure EntityCache where
  users : Int → Option Int
  channels : Int → Option Int
  self_id_opt : Option Int
  self_bot : Bool

/-- Outcome of a Rust expression that may panic: either the value, or a
panic. The panic message string is not modelled. -/
inductive PanicResult (α : Type)
  | panic
  | ok (a : α)
deriving DecidableEq

/-- Option.expect from the Rust standard library: the value if present, a
panic otherwise (the source passes the message
tried to query self_id before it is known). -/
def expect {α : Type} : Option α → PanicResult α
  | none => PanicResult.panic
  | some a => PanicResult.ok a

/-- EntityCache.new: empty user and channel maps, no self id, self_bot false. -/
def EntityCache.new : EntityCache :=
  ⟨fun _ => none, fun _ => none, none, false⟩

/-- EntityCache.self_id: expect on the stored optional self id. -/
def EntityCache.self_id (c : EntityCache) : PanicResult Int :=
  expect c.self_id_opt

/-- EntityCache.is_self_bot: return the stored flag. -/
def EntityCache.is_self_bot (c : EntityCache) : Bool :=
  c.self_bot

/-- EntityCache.contains: users and channels require a stored hash for their
id, chats are always contained. -/
def EntityCache.contains (c : EntityCache) (peer : TlPeer) : Bool :=
  match peer with
  | .User u => (c.users u.user_id).isSome
  | .Chat _ => true
  | .Channel ch => (c.channels ch.channel_id).isSome

/-- Outbound addressable handle for a user (tl.types.InputPeerUser). -/
structure InputPeerUser where
  user_id : Int
  access_hash : Int
deriving DecidableEq

/-- Outbound addressable handle for a basic group (tl.types.InputPeerChat). -/
structure InputPeerChat where
  chat_id : Int
deriving DecidableEq

/-- Outbound addressable handle for a channel (tl.types.InputPeerChannel). -/
structure InputPeerChannel where
  channel_id : Int
  access_hash : Int
deriving DecidableEq

/-- Outbound addressable handle variants produced by get_input
(the relevant variants of tl.enums.InputPeer). -/
inductive InputPeer
  | user (u : InputPeerUser)
  | chat (c : InputPeerChat)
  | channel (c : InputPeerChannel)
deriving DecidableEq

/-- EntityCache.get_input: build the addressable handle for a peer. Users and
channels need their stored access hash and yield None without one; chats are
built from the bare id. -/
def EntityCache.get_input (c : EntityCache) (peer : TlPeer) : Option InputPeer :=
  match peer with
  | .User u => (c.users u.user_id).map (fun access_hash =>
      .user ⟨u.user_id, access_hash⟩)
  | .Chat ch => some (.chat ⟨ch.chat_id⟩)
  | .Channel ch => (c.channels ch.channel_id).map (fun access_hash =>
      .channel ⟨ch.channel_id, access_hash⟩)

/-- Modelled from the spec: the ingestion path that records an observed user
access hash is an external collaborator outside src/; it stores hash into the
users map under id, overwriting any previous entry. -/
def EntityCache.store_user_hash (c : EntityCache) (id hash : Int) : EntityCache :=
  { c with users := fun m => if m = id then some hash else c.users m }

/-- Modelled from the spec: the ingestion path that records an observed
channel access hash, stored into the channels map under id. -/
def EntityCache.store_channel_hash (c : EntityCache) (id hash : Int) : EntityCache :=
  { c with channels := fun m => if m = id then some hash else c.channels m }

/-- The full input of one EntitySet.new call as a single ordered record list:
users are processed before chats, so users come first. -/
def inputRecords (users : List TlUser) (chats : List TlChat) : List (TlUser ⊕ TlChat) :=
  users.map Sum.inl ++ chats.map Sum.inr

/-- The entity a record contributes to the snapshot, through the matching
filter_map closure; placeholders contribute none. -/
def recordEntity : TlUser ⊕ TlChat → Option Entity
  | .inl u => userFilterMap u
  | .inr c => chatFilterMap c

/-- The peer key named by a record, placeholders included: the key of the
matching kind carrying the numeric id found in the record. -/
def recordKey : TlUser ⊕ TlChat → Peer
  | .inl (.user u) => .User u.id
  | .inl (.empty id) => .User id
  | .inr (.empty id) => .Chat id
  | .inr (.chat c) => .Chat c.id
  | .inr (.forbidden id) => .Chat id
  | .inr (.channel ch) => .Channel ch.id
  | .inr (.channelForbidden id) => .Channel id

lemma recordKey_of_entity (r : TlUser ⊕ TlChat) (e : Entity)
    (h : recordEntity r = some e) : Peer.ofTl e.peer = recordKey r := by
  rcases r with u | c
  · rcases u with u | id
    · simp [recordEntity, userFilterMap] at h
      subst h
      rfl
    · simp [recordEntity, userFilterMap] at h
  · rcases c with id | cc | id | cch | id
    · simp [recordEntity, chatFilterMap] at h
    · simp [recordEntity, chatFilterMap] at h
      subst h
      rfl
    · simp [recordEntity, chatFilterMap] at h
    · simp [recordEntity, chatFilterMap] at h
      subst h
      rfl
    · simp [recordEntity, chatFilterMap] at h

lemma filterMap_inputRecords (users : List TlUser) (chats : List TlChat) :
    (inputRecords users chats).filterMap recordEntity =
      users.filterMap userFilterMap ++ chats.filterMap chatFilterMap := by
  simp [inputRecords, List.filterMap_append, List.filterMap_map, Function.comp_def,
    recordEntity]

lemma entitySet_new_map (users : List TlUser) (chats : List TlChat) :
    (EntitySet.new users chats).map =
      hashMapCollect
        (((inputRecords users chats).filterMap recordEntity).map
          (fun entity => (Peer.ofTl entity.peer, entity))) := by
  rw [filterMap_inputRecords]
  rfl

lemma foldl_insertPair_of_forall_ne (l : List (Peer × Entity))
    (m : Peer → Option Entity) (p : Peer) (h : ∀ kv ∈ l, kv.1 ≠ p) :
    l.foldl insertPair m p = m p := by
  induction l generalizing m with
  | nil => rfl
  | cons kv t ih =>
    have hkv : kv.1 ≠ p := h kv (List.mem_cons_self _ _)
    have ht : ∀ x ∈ t, x.1 ≠ p := fun x hx => h x (List.mem_cons_of_mem _ hx)
    rw [List.foldl_cons, ih _ ht]
    simp [insertPair, Ne.symm hkv]

lemma hashMapCollect_of_forall_ne (l : List (Peer × Entity)) (p : Peer)
    (h : ∀ kv ∈ l, kv.1 ≠ p) : hashMapCollect l p = none :=
  foldl_insertPair_of_forall_ne l _ p h

lemma hashMapCollect_append_cons (l1 l2 : List (Peer × Entity)) (p : Peer)
    (e : Entity) (h : ∀ kv ∈ l2, kv.1 ≠ p) :
    hashMapCollect (l1 ++ (p, e) :: l2) p = some e := by
  unfold hashMapCollect
  rw [List.foldl_append, List.foldl_cons,
    foldl_insertPair_of_forall_ne _ _ _ h]
  simp [insertPair]

lemma mem_pairs_key (recs : List (TlUser ⊕ TlChat)) (kv : Peer × Entity)
    (h : kv ∈ (recs.filterMap recordEntity).map
      (fun entity => (Peer.ofTl entity.peer, entity))) :
    ∃ r ∈ recs, recordEntity r = some kv.2 ∧ kv.1 = recordKey r := by
  rcases List.mem_map.mp h with ⟨x, hx, hkv⟩
  rcases List.mem_filterMap.mp hx with ⟨r, hr, hre⟩
  subst hkv
  exact ⟨r, hr, hre, (recordKey_of_entity r x hre).symm ▸ rfl⟩

/-- C7: for the snapshot produced by EntitySet.empty, get returns None for
every peer reference, of every kind and every numeric id. -/
theorem entitySet_empty_get_none (p : TlPeer) :
    EntitySet.empty.get p = none := rfl

/-- C8: the Peer key derivation from a raw peer reference is total (a total
Lean function) and maps each raw peer variant to the Peer variant of the same
kind carrying the same numeric id. -/
theorem peer_ofTl_total_same_kind_same_id (u : PeerUser) (c : PeerChat)
    (ch : PeerChannel) :
    Peer.ofTl (.User u) = .User u.user_id
    ∧ Peer.ofTl (.Chat c) = .Chat c.chat_id
    ∧ Peer.ofTl (.Channel ch) = .Channel ch.channel_id :=
  ⟨rfl, rfl, rfl⟩

/-- C2: on every cache state, get_input on a User peer with id n yields the
InputPeerUser handle carrying n and hash h exactly when h is stored for n in
the users map, and None exactly when nothing is stored; the Channel case is
the same against the channels map; the Chat case always yields the
InputPeerChat handle carrying n. -/
theorem entityCache_get_input_characterization (c : EntityCache) (n : Int) :
    (∀ h : Int,
      c.get_input (.User ⟨n⟩) = some (.user ⟨n, h⟩) ↔ c.users n = some h)
    ∧ (c.get_input (.User ⟨n⟩) = none ↔ c.users n = none)
    ∧ (∀ h : Int,
      c.get_input (.Channel ⟨n⟩) = some (.channel ⟨n, h⟩) ↔ c.channels n = some h)
    ∧ (c.get_input (.Channel ⟨n⟩) = none ↔ c.channels n = none)
    ∧ c.get_input (.Chat ⟨n⟩) = some (.chat ⟨n⟩) := by
  refine ⟨fun h => ?_, ?_, fun h => ?_, ?_, rfl⟩ <;>
    rcases hc : c.users n with _ | hu <;>
    rcases hch : c.channels n with _ | hv <;>
    simp [EntityCache.get_input, hc, hch]

/-- C3: self_id on a cache whose self identifier was never set is a panic,
not a recoverable value; on a cache whose self identifier holds v it returns
v (and, self_id being a pure function of the cache, every subsequent call on
the same cache returns that same v). -/
theorem entityCache_self_id_spec (c : EntityCache) :
    (c.self_id_opt = none → c.self_id = PanicResult.panic)
    ∧ ∀ v : Int, c.self_id_opt = some v → c.self_id = PanicResult.ok v := by
  constructor
  · intro h
    simp [EntityCache.self_id, h, expect]
  · intro v h
    simp [EntityCache.self_id, h, expect]

/-- Witness for C3 at concrete caches: a fresh cache panics, a cache holding
5 returns 5. -/
theorem entityCache_self_id_spec_witness :
    EntityCache.new.self_id = PanicResult.panic
    ∧ (EntityCache.mk (fun _ => none) (fun _ => none) (some 5) false).self_id
        = PanicResult.ok 5 :=
  ⟨(entityCache_self_id_spec EntityCache.new).1 rfl,
   (entityCache_self_id_spec _).2 5 rfl⟩

/-- C4: for every numeric id n, the Peer keys User n, Chat n and Channel n
are pairwise unequal (so they act as distinct map keys), and recording a user
access hash for id n changes neither contains nor get_input on the Channel
peer with id n, and vice versa. -/
theorem peer_kinds_never_collide (c : EntityCache) (n hash : Int) :
    Peer.User n ≠ Peer.Chat n
    ∧ Peer.User n ≠ Peer.Channel n
    ∧ Peer.Chat n ≠ Peer.Channel n
    ∧ (c.store_user_hash n hash).contains (.Channel ⟨n⟩) = c.contains (.Channel ⟨n⟩)
    ∧ (c.store_user_hash n hash).get_input (.Channel ⟨n⟩) = c.get_input (.Channel ⟨n⟩)
    ∧ (c.store_channel_hash n hash).contains (.User ⟨n⟩) = c.contains (.User ⟨n⟩)
    ∧ (c.store_channel_hash n hash).get_input (.User ⟨n⟩) = c.get_input (.User ⟨n⟩) := by
  refine ⟨by simp, by simp, by simp, rfl, rfl, rfl, rfl⟩

/-- C5: on a fresh cache, contains is true on every Chat peer and false on
every User peer; in general contains on a User or Channel peer is true
exactly when the matching map stores a hash for that id, and contains on a
Chat peer is true unconditionally. -/
theorem entityCache_contains_characterization (c : EntityCache) (n : Int) :
    EntityCache.new.contains (.Chat ⟨n⟩) = true
    ∧ EntityCache.new.contains (.User ⟨n⟩) = false
    ∧ (c.contains (.User ⟨n⟩) = true ↔ ∃ h : Int, c.users n = some h)
    ∧ c.contains (.Chat ⟨n⟩) = true
    ∧ (c.contains (.Channel ⟨n⟩) = true ↔ ∃ h : Int, c.channels n = some h) := by
  refine ⟨rfl, rfl, ?_, rfl, ?_⟩ <;>
    simp [EntityCache.contains, Option.isSome_iff_exists]

/-- C9: is_self_bot is total on every cache state, returning the stored
self-bot flag (a Bool, never a panic, asymmetric with self_id); a fresh cache
has empty user and channel maps, no self identifier, and flag false, so
is_self_bot returns false on it. -/
theorem entityCache_is_self_bot_spec (c : EntityCache) (n : Int) :
    EntityCache.new.users n = none
    ∧ EntityCache.new.channels n = none
    ∧ EntityCache.new.self_id_opt = none
    ∧ EntityCache.new.is_self_bot = false
    ∧ c.is_self_bot = c.self_bot :=
  ⟨rfl, rfl, rfl, rfl, rfl⟩

/-- C10: on every cache state and every peer reference of any kind, contains
returns true exactly when get_input returns Some. -/
theorem entityCache_contains_iff_get_input_isSome (c : EntityCache) (p : TlPeer) :
    c.contains p = true ↔ (c.get_input p).isSome = true := by
  rcases p with u | ch | ch
  · rcases hc : c.users u.user_id with _ | h <;>
      simp [EntityCache.contains, EntityCache.get_input, hc]
  · simp [EntityCache.contains, EntityCache.get_input]
  · rcases hc : c.channels ch.channel_id with _ | h <;>
      simp [EntityCache.contains, EntityCache.get_input, hc]

/-- C1 counterexample: with users = [real user 1, empty 1] and no chats, the
Empty placeholder is the last record of the input (so no later record shares
its peer key), yet get on its peer returns the earlier surviving entity, not
None: the claim needs no other record to share the key, not just no later
one. -/
theorem entitySet_new_placeholder_counterexample :
    inputRecords [TlUser.user ⟨1, 0⟩, TlUser.empty 1] []
      = [Sum.inl (TlUser.user ⟨1, 0⟩), Sum.inl (TlUser.empty 1)]
    ∧ recordEntity (Sum.inl (TlUser.empty 1)) = none
    ∧ Peer.ofTl (TlPeer.User ⟨1⟩) = recordKey (Sum.inl (TlUser.empty 1))
    ∧ (EntitySet.new [TlUser.user ⟨1, 0⟩, TlUser.empty 1] []).get (TlPeer.User ⟨1⟩)
      = some (Entity.User ⟨1, 0⟩) := by
  refine ⟨rfl, rfl, rfl, ?_⟩
  decide

/-- C1 (amended): for any decomposition of the input record list around a
record r, if r survives filtering as entity e and no later record shares the
key of r, get on the peer of e returns e; if r is a placeholder and no other
record of the input (earlier or later) shares the key of r, get on any raw
peer deriving to the key of r returns None. -/
theorem entitySet_new_lookup_amended (users : List TlUser) (chats : List TlChat)
    (pre post : List (TlUser ⊕ TlChat)) (r : TlUser ⊕ TlChat)
    (hsplit : inputRecords users chats = pre ++ r :: post) :
    (∀ e : Entity, recordEntity r = some e →
      (∀ r2 ∈ post, recordKey r2 ≠ recordKey r) →
      (EntitySet.new users chats).get e.peer = some e)
    ∧ (recordEntity r = none →
      (∀ r2, (r2 ∈ pre ∨ r2 ∈ post) → recordKey r2 ≠ recordKey r) →
      ∀ q : TlPeer, Peer.ofTl q = recordKey r →
      (EntitySet.new users chats).get q = none) := by
  constructor
  · intro e he hpost
    show (EntitySet.new users chats).map (Peer.ofTl e.peer) = some e
    rw [entitySet_new_map, hsplit, List.filterMap_append,
      List.filterMap_cons_some he, List.map_append, List.map_cons]
    exact hashMapCollect_append_cons _ _ _ _ (by
      intro kv hkv
      obtain ⟨r2, hr2, hre2, hkeq⟩ := mem_pairs_key post kv hkv
      rw [hkeq, recordKey_of_entity r e he]
      exact hpost r2 hr2)
  · intro hnone hall q hq
    show (EntitySet.new users chats).map (Peer.ofTl q) = none
    rw [entitySet_new_map, hsplit, List.filterMap_append,
      List.filterMap_cons_none hnone, ← List.filterMap_append]
    exact hashMapCollect_of_forall_ne _ _ (by
      intro kv hkv
      obtain ⟨r2, hr2, hre2, hkeq⟩ := mem_pairs_key (pre ++ post) kv hkv
      rw [hkeq, hq]
      exact hall r2 (List.mem_append.mp hr2))

/-- Witness for C1 (amended) at a concrete input: a single real user record
is found under its own peer, a lone placeholder record is not found. -/
theorem entitySet_new_lookup_amended_witness :
    (EntitySet.new [TlUser.user ⟨1, 0⟩] []).get (Entity.User ⟨1, 0⟩).peer
      = some (Entity.User ⟨1, 0⟩)
    ∧ (EntitySet.new [TlUser.empty 3] []).get (TlPeer.User ⟨3⟩) = none := by
  constructor
  · exact (entitySet_new_lookup_amended [TlUser.user ⟨1, 0⟩] [] [] []
      (Sum.inl (TlUser.user ⟨1, 0⟩)) rfl).1 (Entity.User ⟨1, 0⟩) rfl
      (by intro r2 h; simp at h)
  · exact (entitySet_new_lookup_amended [TlUser.empty 3] [] [] []
      (Sum.inl (TlUser.empty 3)) rfl).2 rfl
      (by intro r2 h; rcases h with h | h <;> simp at h)
      (TlPeer.User ⟨3⟩) rfl

/-- C6: when two surviving records r1 (earlier) and r2 (later) of a single
EntitySet.new call produce the same peer key, and no record after r2 survives
with that key, the snapshot maps the key to the entity of r2: last write
wins, with no error and no rejection of the input. -/
theorem entitySet_new_last_write_wins (users : List TlUser) (chats : List TlChat)
    (pre mid post : List (TlUser ⊕ TlChat)) (r1 r2 : TlUser ⊕ TlChat)
    (e1 e2 : Entity)
    (hsplit : inputRecords users chats = pre ++ r1 :: (mid ++ r2 :: post))
    (h1 : recordEntity r1 = some e1)
    (h2 : recordEntity r2 = some e2)
    (_hkey : Peer.ofTl e1.peer = Peer.ofTl e2.peer)
    (hlast : ∀ r3 ∈ post, ∀ e3 : Entity, recordEntity r3 = some e3 →
      Peer.ofTl e3.peer ≠ Peer.ofTl e2.peer) :
    (EntitySet.new users chats).get e2.peer = some e2 := by
  show (EntitySet.new users chats).map (Peer.ofTl e2.peer) = some e2
  rw [entitySet_new_map, hsplit, List.filterMap_append,
    List.filterMap_cons_some h1, List.filterMap_append,
    List.filterMap_cons_some h2]
  have hshape :
      (pre.filterMap recordEntity ++
          e1 :: (mid.filterMap recordEntity ++ e2 :: post.filterMap recordEntity)).map
        (fun entity => (Peer.ofTl entity.peer, entity))
      = ((pre.filterMap recordEntity ++ e1 :: mid.filterMap recordEntity).map
          (fun entity => (Peer.ofTl entity.peer, entity)))
        ++ (Peer.ofTl e2.peer, e2) ::
          (post.filterMap recordEntity).map
            (fun entity => (Peer.ofTl entity.peer, entity)) := by
    simp [List.map_append]
  rw [hshape]
  exact hashMapCollect_append_cons _ _ _ _ (by
    intro kv hkv
    obtain ⟨r3, hr3, hre3, hkeq⟩ := mem_pairs_key post kv hkv
    rw [hkeq, ← recordKey_of_entity r3 kv.2 hre3]
    exact hlast r3 hr3 kv.2 hre3)

/-- Witness for C6 at a concrete input: two real user records with the same
id 1 and different payloads; the later one is the entity found under the
shared key. -/
theorem entitySet_new_last_write_wins_witness :
    (EntitySet.new [TlUser.user ⟨1, 0⟩, TlUser.user ⟨1, 1⟩] []).get
      (Entity.User ⟨1, 1⟩).peer = some (Entity.User ⟨1, 1⟩) :=
  entitySet_new_last_write_wins [TlUser.user ⟨1, 0⟩, TlUser.user ⟨1, 1⟩] []
    [] [] [] (Sum.inl (TlUser.user ⟨1, 0⟩)) (Sum.inl (TlUser.user ⟨1, 1⟩))
    (Entity.User ⟨1, 0⟩) (Entity.User ⟨1, 1⟩) rfl rfl rfl rfl
    (by intro r3 h; simp at h)

end Telerust
